import Mathlib

set_option maxRecDepth 8000

/-!
Shallow embedding of the council seats election module
(source: srml/council/src/seats.rs).

Accounts, balances, vote indices and block numbers are modelled as `Nat`
(the Rust code is generic over these types; arithmetic on balances uses
saturating subtraction, which coincides with truncated `Nat` subtraction).
The default (sentinel) account of the Rust code is modelled as `0`.
Storage maps are modelled as functions out of the account type; storage
values as record fields.  Dispatch operations are modelled as functions
`CouncilState → Option String × CouncilState` returning the error (if any)
together with the state after the call, so that state changes performed
before an error bail-out are visible, exactly as in the source where an
`Err` return does not undo earlier writes.
-/

/-- The default account used by the source for holes in the candidate list. -/
def sentinelAccount : Nat := 0

/-- The activity status of a voter (struct VoterActivity in the source). -/
structure VoterActivity where
  last_active : Nat
  last_win : Nat
  deriving DecidableEq

/-- Events deposited by the module (decl_event in the source). -/
inductive CouncilEvent where
  | voterReaped (target reporter : Nat)
  | badReaperSlashed (reporter : Nat)
  | tallyStarted (seats : Nat)
  | tallyFinalized (incoming outgoing : List Nat)
  deriving DecidableEq

/-- The whole storage of the council module (decl_storage in the source),
together with the balances module state it interacts with (free and
reserved balance per account, balance locks), the two slash destinations
(`BadPresentation` and `BadReaper` sinks, modelled as accumulators), the
deposited events and the current block number. -/
structure CouncilState where
  candidacy_bond : Nat
  voting_bond : Nat
  present_slash_per_voter : Nat
  carry_count : Nat
  presentation_duration : Nat
  inactivity_grace_period : Nat
  voting_period : Nat
  term_duration : Nat
  desired_seats : Nat
  decay_ratio : Nat
  active_council : List (Nat × Nat)
  vote_index : Nat
  approvals_of : Nat → List Bool
  candidate_reg_info : Nat → Option (Nat × Nat)
  voter_activity : Nat → Option VoterActivity
  offset_pot : Nat → Option Nat
  voters : List (Nat × Nat)
  candidates : List Nat
  candidate_count : Nat
  next_finalize : Option (Nat × Nat × List Nat)
  leaderboard : Option (List (Nat × Nat))
  free : Nat → Nat
  reserved : Nat → Nat
  locks : Nat → Option Nat
  bad_presentation_pot : Nat
  bad_reaper_pot : Nat
  events : List CouncilEvent
  block_number : Nat

/-- True if we are currently in a presentation period (fn presentation_active). -/
def presentation_active (st : CouncilState) : Bool :=
  st.next_finalize.isSome

/-- Currency: total balance of an account (free plus reserved). -/
def total_balance (st : CouncilState) (a : Nat) : Nat :=
  st.free a + st.reserved a

/-- Currency: move `amt` from free to reserved balance of `a`; the caller has
already checked that the free balance suffices. -/
def reserveForce (st : CouncilState) (a : Nat) (amt : Nat) : CouncilState :=
  { st with free := fun x => if x = a then st.free a - amt else st.free x,
            reserved := fun x => if x = a then st.reserved a + amt else st.reserved x }

/-- Currency: unreserve up to `amt` of the reserved balance of `a`. -/
def unreserveOp (st : CouncilState) (a : Nat) (amt : Nat) : CouncilState :=
  { st with reserved := fun x => if x = a then st.reserved a - min (st.reserved a) amt else st.reserved x,
            free := fun x => if x = a then st.free a + min (st.reserved a) amt else st.free x }

/-- Currency: slash up to `amt` from `a`, first from the free then from the
reserved balance; returns the new state and the slashed amount (imbalance). -/
def slashOp (st : CouncilState) (a : Nat) (amt : Nat) : CouncilState × Nat :=
  let fromFree := min (st.free a) amt
  let fromReserved := min (st.reserved a) (amt - fromFree)
  ({ st with free := fun x => if x = a then st.free a - fromFree else st.free x,
             reserved := fun x => if x = a then st.reserved a - fromReserved else st.reserved x },
   fromFree + fromReserved)

/-- Currency: slash up to `amt` from the reserved balance of `a`;
returns the new state and the slashed amount (imbalance). -/
def slashReservedOp (st : CouncilState) (a : Nat) (amt : Nat) : CouncilState × Nat :=
  let x := min (st.reserved a) amt
  ({ st with reserved := fun y => if y = a then st.reserved a - x else st.reserved y }, x)

/-- Currency: move up to `amt` of the reserved balance of `src` into the free
balance of `dst` (repatriate_reserved; its only failure mode, a missing
beneficiary account, cannot occur here since the beneficiary is the caller). -/
def repatriateOp (st : CouncilState) (src dst : Nat) (amt : Nat) : CouncilState :=
  let x := min (st.reserved src) amt
  { st with reserved := fun y => if y = src then st.reserved src - x else st.reserved y,
            free := fun y => if y = dst then st.free dst + x else st.free y }

/-- Currency: set the council balance lock of `a` to `amt`. -/
def setLockOp (st : CouncilState) (a : Nat) (amt : Nat) : CouncilState :=
  { st with locks := fun x => if x = a then some amt else st.locks x }

/-- Currency: remove the council balance lock of `a`. -/
def removeLockOp (st : CouncilState) (a : Nat) : CouncilState :=
  { st with locks := fun x => if x = a then none else st.locks x }

/-- Deposit an event. -/
def depositEvent (st : CouncilState) (e : CouncilEvent) : CouncilState :=
  { st with events := st.events ++ [e] }

/-- The loop of fn get_offset: iterate `t` times
`cur ← cur − cur / decay; acc ← acc + cur` starting from `cur` and
accumulator `0` (saturating subtraction is plain `Nat` subtraction). -/
def offsetLoop (decay : Nat) : Nat → Nat → Nat
  | _, 0 => 0
  | cur, t + 1 => (cur - cur / decay) + offsetLoop decay (cur - cur / decay) t

/-- fn get_offset of the source: decayed weight offset of `stake` at distance
`t` from the last win, with decay ratio `decay_ratio`. -/
def get_offset (decay_ratio : Nat) (stake : Nat) (t : Nat) : Nat :=
  if 150 < t then stake * decay_ratio
  else offsetLoop (decay_ratio + 1) stake t

/-- Rust `Vec::swap_remove`: replace position `i` by the last element and pop. -/
def swapRemove (l : List (Nat × Nat)) (i : Nat) : List (Nat × Nat) :=
  (l.set i (l.getLastD (0, 0))).dropLast

/-- fn remove_voter of the source: swap-remove the entry at `index` from the
voter list and delete approvals, activity and offset pot of `voter`. -/
def removeVoterOp (st : CouncilState) (voter : Nat) (index : Nat) : CouncilState :=
  { st with voters := swapRemove st.voters index,
            approvals_of := fun x => if x = voter then [] else st.approvals_of x,
            voter_activity := fun x => if x = voter then none else st.voter_activity x,
            offset_pot := fun x => if x = voter then none else st.offset_pot x }

/-- fn do_set_approvals of the source. -/
def do_set_approvals (st : CouncilState) (who : Nat) (votes : List Bool)
    (index : Nat) : Option String × CouncilState :=
  if presentation_active st then
    (some "no approval changes during presentation period", st)
  else if index ≠ st.vote_index then
    (some "incorrect vote index", st)
  else if st.candidates.isEmpty then
    (some "amount of candidates to receive approval votes should be non-zero", st)
  else if ¬ (votes.length ≤ st.candidates.length) then
    (some "amount of candidate approval votes cannot exceed amount of candidates", st)
  else
    let locked_balance := total_balance st who
    match st.voter_activity who with
    | some activity =>
      let st1 :=
        match st.voters.findIdx? (fun i => i.1 == who) with
        | some old_voter_idx =>
          let stake := (st.voters.getD old_voter_idx (0, 0)).2
          { st with
              voters := st.voters.set old_voter_idx (who, locked_balance),
              offset_pot := fun x => if x = who then
                  some ((st.offset_pot who).getD 0 +
                    get_offset st.decay_ratio stake (index - activity.last_win))
                else st.offset_pot x }
        | none => st
      let st2 := setLockOp st1 who locked_balance
      (none, { st2 with
          voter_activity := fun x => if x = who then
              some { last_active := index, last_win := index } else st2.voter_activity x,
          approvals_of := fun x => if x = who then votes else st2.approvals_of x })
    | none =>
      if st.voting_bond ≤ st.free who then
        let st1 := reserveForce st who st.voting_bond
        let st2 := { st1 with voters := st1.voters ++ [(who, locked_balance)] }
        let st3 := setLockOp st2 who locked_balance
        (none, { st3 with
            voter_activity := fun x => if x = who then
                some { last_active := index, last_win := index } else st3.voter_activity x,
            approvals_of := fun x => if x = who then votes else st3.approvals_of x })
      else (some "not enough free funds", st)

/-- fn submit_candidacy of the source. -/
def submit_candidacy (st : CouncilState) (who : Nat) (slot : Nat) :
    Option String × CouncilState :=
  if (st.candidate_reg_info who).isSome then
    (some "duplicate candidate submission", st)
  else if ¬ ((slot = st.candidate_count ∧ st.candidate_count = st.candidates.length) ∨
      (slot < st.candidates.length ∧ st.candidates.getD slot sentinelAccount = sentinelAccount)) then
    (some "invalid candidate slot", st)
  else if st.candidacy_bond ≤ st.free who then
    let st1 := reserveForce st who st.candidacy_bond
    (none, { st1 with
        candidate_reg_info := fun x => if x = who then
            some (st.vote_index, slot) else st1.candidate_reg_info x,
        candidates := if slot = st.candidates.length then st.candidates ++ [who]
          else st.candidates.set slot who,
        candidate_count := st.candidate_count + 1 })
  else (some "candidate has not enough funds", st)

/-- fn retract_voter of the source. -/
def retract_voter (st : CouncilState) (who : Nat) (index : Nat) :
    Option String × CouncilState :=
  if presentation_active st then
    (some "cannot retract when presenting", st)
  else if (st.voter_activity who).isNone then
    (some "cannot retract non-voter", st)
  else if ¬ (index < st.voters.length) then
    (some "retraction index invalid", st)
  else if (st.voters.getD index (0, 0)).1 ≠ who then
    (some "retraction index mismatch", st)
  else
    let st1 := removeVoterOp st who index
    let st2 := unreserveOp st1 who st.voting_bond
    (none, removeLockOp st2 who)

/-- The staleness test inside fn reap_inactive_voter: `true` iff no approved
slot of `who` currently holds a non-sentinel registered candidate whose
registration vote index is at most `last_active` (the negation of the
`any` in the source assigned to `valid`). -/
def reapValid (st : CouncilState) (who : Nat) (last_active : Nat) : Bool :=
  ! ((st.approvals_of who).zip st.candidates).any (fun p =>
      p.1 && (p.2 != sentinelAccount) &&
        (match st.candidate_reg_info p.2 with
         | some x => decide (x.1 ≤ last_active)
         | none => false))

/-- fn reap_inactive_voter of the source. -/
def reap_inactive_voter (st : CouncilState) (reporter : Nat) (reporter_index : Nat)
    (who : Nat) (who_index : Nat) (assumed_vote_index : Nat) :
    Option String × CouncilState :=
  if presentation_active st then
    (some "cannot reap during presentation period", st)
  else if (st.voter_activity reporter).isNone then
    (some "reporter must be a voter", st)
  else
    match st.voter_activity who with
    | none => (some "target for inactivity cleanup must be active", st)
    | some activity =>
      if assumed_vote_index ≠ st.vote_index then
        (some "vote index not current", st)
      else if ¬ (activity.last_active + st.inactivity_grace_period < assumed_vote_index) then
        (some "cannot reap during grace period", st)
      else if ¬ (reporter_index < st.voters.length ∧
          (st.voters.getD reporter_index (0, 0)).1 = reporter) then
        (some "bad reporter index", st)
      else if ¬ (who_index < st.voters.length ∧
          (st.voters.getD who_index (0, 0)).1 = who) then
        (some "bad target index", st)
      else
        let valid := reapValid st who activity.last_active
        let st1 := removeVoterOp st (if valid then who else reporter)
          (if valid then who_index else reporter_index)
        let st2 := removeLockOp st1 (if valid then who else reporter)
        if valid then
          let st3 := repatriateOp st2 who reporter st.voting_bond
          (none, depositEvent st3 (CouncilEvent.voterReaped who reporter))
        else
          let p := slashReservedOp st2 reporter st.voting_bond
          let st4 := { p.1 with bad_reaper_pot := p.1.bad_reaper_pot + p.2 }
          (none, depositEvent st4 (CouncilEvent.badReaperSlashed reporter))

/-- Ascending order on leaderboard entries by weight (first component). -/
def weightLe (a b : Nat × Nat) : Prop := a.1 ≤ b.1

instance : DecidableRel weightLe := fun a b => inferInstanceAs (Decidable (a.1 ≤ b.1))

instance : IsTotal (Nat × Nat) weightLe := ⟨fun a b => Nat.le_total a.1 b.1⟩

instance : IsTrans (Nat × Nat) weightLe := ⟨fun _ _ _ h1 h2 => Nat.le_trans h1 h2⟩

/-- Stable ascending sort of the leaderboard by weight (sort_by_key in the source). -/
def sortByWeight (l : List (Nat × Nat)) : List (Nat × Nat) :=
  l.insertionSort weightLe

/-- Ascending order on council entries by expiry block (second component). -/
def expiryLe (a b : Nat × Nat) : Prop := a.2 ≤ b.2

instance : DecidableRel expiryLe := fun a b => inferInstanceAs (Decidable (a.2 ≤ b.2))

instance : IsTotal (Nat × Nat) expiryLe := ⟨fun a b => Nat.le_total a.2 b.2⟩

instance : IsTrans (Nat × Nat) expiryLe := ⟨fun _ _ _ h1 h2 => Nat.le_trans h1 h2⟩

/-- Stable ascending sort of the council by expiry (sort_by_key in the source). -/
def sortByExpiry (l : List (Nat × Nat)) : List (Nat × Nat) :=
  l.insertionSort expiryLe

/-- The contribution of one voter entry to the recomputed total of
fn present_winner (the closure of the filter_map in the source):
`none` when the voter contributes nothing. -/
def presentContribution (st : CouncilState) (registered_since : Nat)
    (candidate_index : Nat) (p : Nat × Nat) : Option Nat :=
  match st.voter_activity p.1 with
  | some b =>
    if registered_since ≤ b.last_active then
      match (st.approvals_of p.1)[candidate_index]? with
      | some approved =>
        if approved then
          some (p.2 + get_offset st.decay_ratio p.2 (st.vote_index - b.last_win) +
            (st.offset_pot p.1).getD 0)
        else none
      | none => none
    else none
  | none => none

/-- The recomputed `actual_total` of fn present_winner. -/
def actual_total (st : CouncilState) (registered_since : Nat)
    (candidate_index : Nat) : Nat :=
  (st.voters.filterMap (presentContribution st registered_since candidate_index)).foldl
    (fun a b => a + b) 0

/-- The council membership check of fn present_winner: if the candidate sits
on the active council at position `p` then `p` must be below the number of
recorded expiring members. -/
def councilPositionOk (st : CouncilState) (candidate : Nat)
    (expiring : List Nat) : Bool :=
  match st.active_council.findIdx? (fun c => c.1 == candidate) with
  | some p => decide (p < expiring.length)
  | none => true

/-- The punitive state change on a failed presentation: slash the presenter
by `present_slash_per_voter * |voters|` into the BadPresentation sink. -/
def badPresentationSlash (st : CouncilState) (who : Nat) : CouncilState :=
  let p := slashOp st who (st.present_slash_per_voter * st.voters.length)
  { p.1 with bad_presentation_pot := p.1.bad_presentation_pot + p.2 }

/-- fn present_winner of the source.  Note: while the leaderboard is set it is
never empty (start_tally seeds it with `empty_seats + carry_count ≥ 1`
entries), so the `leaderboard[0]` read is modelled with `getD`. -/
def present_winner (st : CouncilState) (who candidate : Nat) (total : Nat)
    (index : Nat) : Option String × CouncilState :=
  if total = 0 then
    (some "stake deposited to present winner and be added to leaderboard should be non-zero", st)
  else if index ≠ st.vote_index then
    (some "index not current", st)
  else
    match st.next_finalize with
    | none => (some "cannot present outside of presentation period", st)
    | some nf =>
      if ¬ (st.present_slash_per_voter * st.voters.length ≤ st.free who) then
        (some "presenter must have sufficient slashable funds", st)
      else
        match st.leaderboard with
        | none => (some "leaderboard must exist while present phase active", st)
        | some leaderboard =>
          if ¬ ((leaderboard.getD 0 (0, sentinelAccount)).1 < total) then
            (some "candidate not worthy of leaderboard", st)
          else if ¬ (councilPositionOk st candidate nf.2.2 = true) then
            (some "candidate must not form a duplicated member if elected", st)
          else
            match st.candidate_reg_info candidate with
            | none => (some "presented candidate must be current", st)
            | some reg =>
              let atot := actual_total st reg.1 reg.2
              let dupe := leaderboard.any (fun c => c.2 == candidate)
              if total = atot ∧ dupe = false then
                (none, { st with
                    leaderboard := some (sortByWeight (leaderboard.set 0 (total, candidate))) })
              else
                (some (if dupe then "duplicate presentation" else "incorrect total"),
                 badPresentationSlash st who)

/-- The incoming winners of fn finalize_tally: from the top of the leaderboard
downward, the non-zero-weight entries, up to `coming` of them. -/
def incomingFrom (leaderboard : List (Nat × Nat)) (coming : Nat) : List Nat :=
  ((leaderboard.reverse.takeWhile (fun p => p.1 != 0)).take coming).map Prod.snd

/-- The runners-up of fn finalize_tally: the non-zero-weight leaderboard
entries after the first `coming` from the top, with their registered slots. -/
def runnersUpFrom (st : CouncilState) (leaderboard : List (Nat × Nat))
    (coming : Nat) : List (Nat × Nat) :=
  ((leaderboard.reverse.takeWhile (fun p => p.1 != 0)).drop coming).filterMap
    (fun p => (st.candidate_reg_info p.2).map (fun i => (p.2, i.2)))

/-- Set the last win index of voter `v` to `now1` (the mutate closure of
fn finalize_tally; a missing activity record stays missing). -/
def updLastWin (now1 : Nat) (act : Nat → Option VoterActivity)
    (v : Nat) : Nat → Option VoterActivity :=
  fun x => if x = v then (act v).map (fun b => { b with last_win := now1 }) else act x

/-- Mark the last win of every voter whose approval at `slot` is set
(one pass of the inner loop of fn finalize_tally). -/
def updSlot (st0 : CouncilState) (now1 : Nat) (slot : Nat)
    (act : Nat → Option VoterActivity) : Nat → Option VoterActivity :=
  st0.voters.foldl
    (fun act p => if (st0.approvals_of p.1).getD slot false then updLastWin now1 act p.1 else act)
    act

/-- Mark the last win of the approvers of all incoming winners
(the outer loop of fn finalize_tally over the registration records). -/
def updAllWinners (st0 : CouncilState) (now1 : Nat)
    (regs : List (Nat × Nat)) (act : Nat → Option VoterActivity) :
    Nat → Option VoterActivity :=
  regs.foldl (fun act r => updSlot st0 now1 r.2 act) act

/-- Truncate trailing sentinel entries (the rposition/truncate step of
fn finalize_tally; a list of only sentinels is left untouched, as in the source). -/
def truncTrailing (nc : List Nat) : List Nat :=
  match nc.reverse.findIdx? (fun c => c != sentinelAccount) with
  | some j => nc.take (nc.length - j)
  | none => nc

/-- The outgoing members of fn finalize_tally. -/
def outgoingFrom (st : CouncilState) (expiring : List Nat) : List Nat :=
  (st.active_council.take expiring.length).map Prod.fst

/-- fn finalize_tally of the source. -/
def finalize_tally (st : CouncilState) : Option String × CouncilState :=
  match st.next_finalize with
  | none => (some "finalize can only be called after a tally is started.", st)
  | some nf =>
    let coming := nf.2.1
    let expiring := nf.2.2
    let leaderboard := st.leaderboard.getD []
    let stA := { st with next_finalize := none, leaderboard := none }
    let new_expiry := st.block_number + st.term_duration
    let incoming := incomingFrom leaderboard coming
    let stB := incoming.foldl (fun s a => unreserveOp s a st.candidacy_bond) stA
    let regs := incoming.filterMap st.candidate_reg_info
    let stC := { stB with
      voter_activity := updAllWinners st (st.vote_index + 1) regs st.voter_activity }
    let outgoing := outgoingFrom st expiring
    let new_council := sortByExpiry ((st.active_council.drop expiring.length) ++
      incoming.map (fun a => (a, new_expiry)))
    let stD := { stC with active_council := new_council }
    let runners := runnersUpFrom st leaderboard coming
    let placed := runners.foldl (fun p r => (p.1.set r.2 r.1, p.2 + 1))
      (List.replicate st.candidates.length sentinelAccount, 0)
    let reg2 := (st.candidates.zip placed.1).foldl
      (fun reg q => if q.1 ≠ q.2 then (fun x => if x = q.1 then none else reg x) else reg)
      st.candidate_reg_info
    let stE := depositEvent stD (CouncilEvent.tallyFinalized incoming outgoing)
    (none, { stE with
        candidates := truncTrailing placed.1,
        candidate_reg_info := reg2,
        candidate_count := placed.2,
        vote_index := st.vote_index + 1 })

/-- The `(next_possible, count, coming)` count component computed by
fn next_tally, with the unguarded usize subtraction
`active_council.len() - leavers.len()` made explicit: `none` when that
subtraction would underflow (a panic in the source). -/
def next_tally_count (st : CouncilState) : Option Nat :=
  match st.next_finalize with
  | some nf =>
    if nf.2.2.length ≤ st.active_council.length then
      some (st.active_council.length - nf.2.2.length + nf.2.1)
    else none
  | none => some st.active_council.length

/-- fn remove_member of the source: filter `who` out of the active council. -/
def remove_member (st : CouncilState) (who : Nat) : CouncilState :=
  { st with active_council := st.active_council.filter (fun i => i.1 != who) }

/-! ### Claim-side definitions

The following definitions transcribe the wording of the claims (not the
source); the theorems below compare them with the definitions above, which
were transcribed from the source. -/

/-- Claim C1 wording: the last active index of a voter (the claims speak of
`activity[v].last_active`, presupposing the record exists; a missing record
is defaulted, and the comparison theorem assumes every voter has one). -/
def claimLastActive (st : CouncilState) (v : Nat) : Nat :=
  ((st.voter_activity v).getD { last_active := 0, last_win := 0 }).last_active

/-- Claim C1 wording: the last win index of a voter. -/
def claimLastWin (st : CouncilState) (v : Nat) : Nat :=
  ((st.voter_activity v).getD { last_active := 0, last_win := 0 }).last_win

/-- Claim C1 wording: `snapshot_stake[v] + offset(snapshot_stake[v],
vote_index − activity[v].last_win) + offset_pot[v]`. -/
def claimVoterWeight (st : CouncilState) (v : Nat) (stake : Nat) : Nat :=
  stake + get_offset st.decay_ratio stake (st.vote_index - claimLastWin st v) +
    (st.offset_pot v).getD 0

/-- Claim C1 wording: the sum over all voters of the weight, taken exactly
when `activity[v].last_active ≥ registered_at` and position `slot` of the
approvals of `v` is true (a missing trailing position counting as false),
and `0` otherwise. -/
def claimTotal (st : CouncilState) (registered_at : Nat) (slot : Nat) : Nat :=
  (st.voters.map (fun p =>
    if registered_at ≤ claimLastActive st p.1 ∧ (st.approvals_of p.1).getD slot false = true
    then claimVoterWeight st p.1 p.2 else 0)).sum

/-- Claim C2 wording: the target is stale iff none of their approved slots
currently holds a non-sentinel candidate whose registration vote index is
at most the target's `last_active`. -/
def StaleTarget (st : CouncilState) (who : Nat) (last_active : Nat) : Prop :=
  ¬ ∃ i, (st.approvals_of who).getD i false = true ∧
      i < st.candidates.length ∧
      st.candidates.getD i sentinelAccount ≠ sentinelAccount ∧
      ∃ r, st.candidate_reg_info (st.candidates.getD i sentinelAccount) = some r ∧
        r.1 ≤ last_active

/-- Claim C3 wording: one step of the iteration, on the pair (cur, acc). -/
def claimStep (d : Nat) (p : Nat × Nat) : Nat × Nat :=
  (p.1 - p.1 / d, p.2 + (p.1 - p.1 / d))

/-- Claim C3 wording of the offset function: 0 when t = 0; stake · N when
t > 150; otherwise the accumulator after iterating `claimStep` t times
with d = N + 1, starting from (stake, 0). -/
def claimOffset (N : Nat) (stake : Nat) (t : Nat) : Nat :=
  if t = 0 then 0
  else if 150 < t then stake * N
  else ((claimStep (N + 1))^[t] (stake, 0)).2

/-- Claim C6 wording of do_set_approvals.  The balance lock write is carried
over from the source (the claim does not mention it), so that the states can
be compared for full equality; every other step follows the claim sentences:
the four rejection causes, the fresh-voter branch (reserve the voting bond,
append `(who, total_balance)`), the existing-voter branch (update the stake
in place, first crediting `get_offset(old_stake, vote_index − last_win)`
into the offset pot), and in every successful case writing
`activity[who] = (vote_index, vote_index)` and `approvals[who] = votes`. -/
def spec_do_set_approvals (st : CouncilState) (who : Nat) (votes : List Bool)
    (index : Nat) : Option String × CouncilState :=
  if presentation_active st then
    (some "no approval changes during presentation period", st)
  else if index ≠ st.vote_index then
    (some "incorrect vote index", st)
  else if st.candidates = [] then
    (some "amount of candidates to receive approval votes should be non-zero", st)
  else if st.candidates.length < votes.length then
    (some "amount of candidate approval votes cannot exceed amount of candidates", st)
  else
    match st.voter_activity who with
    | none =>
      if st.voting_bond ≤ st.free who then
        let st1 := reserveForce st who st.voting_bond
        let st2 := { st1 with voters := st1.voters ++ [(who, total_balance st who)] }
        let st3 := setLockOp st2 who (total_balance st who)
        (none, { st3 with
            voter_activity := fun x => if x = who then
                some { last_active := st.vote_index, last_win := st.vote_index }
              else st3.voter_activity x,
            approvals_of := fun x => if x = who then votes else st3.approvals_of x })
      else (some "not enough free funds", st)
    | some activity =>
      let st1 :=
        match st.voters.findIdx? (fun i => i.1 == who) with
        | some old_voter_idx =>
          let old_stake := (st.voters.getD old_voter_idx (0, 0)).2
          { st with
              voters := st.voters.set old_voter_idx (who, total_balance st who),
              offset_pot := fun x => if x = who then
                  some ((st.offset_pot who).getD 0 +
                    get_offset st.decay_ratio old_stake (st.vote_index - activity.last_win))
                else st.offset_pot x }
        | none => st
      let st2 := setLockOp st1 who (total_balance st who)
      (none, { st2 with
          voter_activity := fun x => if x = who then
              some { last_active := st.vote_index, last_win := st.vote_index }
            else st2.voter_activity x,
          approvals_of := fun x => if x = who then votes else st2.approvals_of x })

/-- Claim C7 wording of submit_candidacy: fails on a duplicate registration;
the slot must equal both the current length of the candidate sequence and
`candidate_count` (strict append) or be an in-range position holding the
sentinel; on success reserve the candidacy bond, record
`candidate_reg[who] = (vote_index, slot)`, place `who` at `slot` (growing
the sequence by one when appending) and increment `candidate_count`. -/
def spec_submit_candidacy (st : CouncilState) (who : Nat) (slot : Nat) :
    Option String × CouncilState :=
  if (st.candidate_reg_info who).isSome then
    (some "duplicate candidate submission", st)
  else if (slot = st.candidates.length ∧ slot = st.candidate_count) ∨
      (slot < st.candidates.length ∧ st.candidates.getD slot sentinelAccount = sentinelAccount) then
    if st.candidacy_bond ≤ st.free who then
      let st1 := reserveForce st who st.candidacy_bond
      (none, { st1 with
          candidate_reg_info := fun x => if x = who then
              some (st.vote_index, slot) else st1.candidate_reg_info x,
          candidates := if slot = st.candidates.length then st.candidates ++ [who]
            else st.candidates.set slot who,
          candidate_count := st.candidate_count + 1 })
    else (some "candidate has not enough funds", st)
  else (some "invalid candidate slot", st)

/-! ### Concrete states used by the witnesses and counterexamples -/

/-- A quiet base state with the parameter values of the test fixture of the
source (candidacy bond 3, voting bond 2, slash-per-voter 1, carry 2,
presentation duration 2, grace 1, voting period 4, term 5, 2 desired seats,
decay ratio 24). -/
def baseState : CouncilState :=
  { candidacy_bond := 3,
    voting_bond := 2,
    present_slash_per_voter := 1,
    carry_count := 2,
    presentation_duration := 2,
    inactivity_grace_period := 1,
    voting_period := 4,
    term_duration := 5,
    desired_seats := 2,
    decay_ratio := 24,
    active_council := [],
    vote_index := 0,
    approvals_of := fun _ => [],
    candidate_reg_info := fun _ => none,
    voter_activity := fun _ => none,
    offset_pot := fun _ => none,
    voters := [],
    candidates := [],
    candidate_count := 0,
    next_finalize := none,
    leaderboard := none,
    free := fun _ => 100,
    reserved := fun _ => 0,
    locks := fun _ => none,
    bad_presentation_pot := 0,
    bad_reaper_pot := 0,
    events := [],
    block_number := 6 }

/-- A state in the middle of a presentation: candidate 2 registered at slot 0,
voter 3 with stake 10 approving slot 0, presenter 4 funded. -/
def exPresent : CouncilState :=
  { baseState with
    next_finalize := some (8, 1, [9]),
    leaderboard := some [(0, 0), (0, 0)],
    voters := [(3, 10)],
    voter_activity := fun a => if a = 3 then some { last_active := 0, last_win := 0 } else none,
    approvals_of := fun a => if a = 3 then [true] else [],
    candidates := [2],
    candidate_reg_info := fun a => if a = 2 then some (0, 0) else none,
    candidate_count := 1 }

/-- Like `exPresent`, but the presented candidate 7 also sits on the active
council while the recorded expiring member is account 9 (so 7 is not among
the expiring members, yet its council position 0 is below the number of
expiring members). -/
def exPresentCouncil : CouncilState :=
  { exPresent with
    active_council := [(7, 100)],
    candidates := [7],
    candidate_reg_info := fun a => if a = 7 then some (0, 0) else none }

/-- A state outside presentation, at vote index 4, with voters 1 (reporter)
and 2 (reapable target, last active at index 2), both with a reserved
voting bond, and no registered candidates. -/
def exReap : CouncilState :=
  { baseState with
    vote_index := 4,
    voters := [(1, 50), (2, 60)],
    voter_activity := fun a =>
      if a = 1 then some { last_active := 4, last_win := 0 }
      else if a = 2 then some { last_active := 2, last_win := 0 } else none,
    approvals_of := fun a => if a = 2 then [true] else [],
    reserved := fun a => if a = 1 then 2 else if a = 2 then 2 else 0 }

/-- A state ready to be finalized: one seat to fill, candidate 2 on the
leaderboard with weight 5, voter 3 approving the slot of candidate 2. -/
def exFinalize : CouncilState :=
  { baseState with
    next_finalize := some (8, 1, []),
    leaderboard := some [(0, 0), (5, 2)],
    voters := [(3, 10)],
    voter_activity := fun a => if a = 3 then some { last_active := 0, last_win := 0 } else none,
    approvals_of := fun a => if a = 3 then [true] else [],
    candidates := [2],
    candidate_reg_info := fun a => if a = 2 then some (0, 0) else none,
    candidate_count := 1 }

/-- A state in presentation whose stored expiring-members list has one entry
for a council of size one, so that removing that member makes the
next-tally member count underflow. -/
def exTally : CouncilState :=
  { baseState with
    active_council := [(7, 10)],
    next_finalize := some (12, 1, [7]),
    leaderboard := some [(0, 0), (0, 0), (0, 0)] }

/-! ### Helper lemmas about the decay engine -/

/-- One decay step is monotone: `a ≤ b → a - a / d ≤ b - b / d` for `0 < d`. -/
theorem decayStep_mono {d : Nat} (hd : 0 < d) {a b : Nat} (hab : a ≤ b) :
    a - a / d ≤ b - b / d := by
  induction b, hab using Nat.le_induction with
  | base => exact Nat.le_refl _
  | succ b hb ih =>
    refine Nat.le_trans ih ?_
    have h1 : (b + 1) / d ≤ b / d + 1 := by
      have := Nat.add_div_right b hd
      calc (b + 1) / d ≤ (b + d) / d := Nat.div_le_div_right (by omega)
        _ = b / d + 1 := this
    have h2 : b / d ≤ b := Nat.div_le_self b d
    omega

/-- The loop value is monotone in the starting value. -/
theorem offsetLoop_mono_cur {d : Nat} (hd : 0 < d) {a b : Nat} (hab : a ≤ b) :
    ∀ t, offsetLoop d a t ≤ offsetLoop d b t := by
  intro t
  induction t generalizing a b with
  | zero => exact Nat.le_refl _
  | succ t ih =>
    simp only [offsetLoop]
    exact Nat.add_le_add (decayStep_mono hd hab) (ih (decayStep_mono hd hab))

/-- The loop value grows by one more iteration. -/
theorem offsetLoop_le_succ (d : Nat) (c t : Nat) :
    offsetLoop d c t ≤ offsetLoop d c (t + 1) := by
  induction t generalizing c with
  | zero => exact Nat.zero_le _
  | succ t ih =>
    simp only [offsetLoop]
    exact Nat.add_le_add_left (ih (c - c / d)) _

/-- The loop value is monotone in the iteration count. -/
theorem offsetLoop_mono_t (d c : Nat) {t1 t2 : Nat} (h : t1 ≤ t2) :
    offsetLoop d c t1 ≤ offsetLoop d c t2 := by
  induction t2, h using Nat.le_induction with
  | base => exact Nat.le_refl _
  | succ t2 h ih => exact Nat.le_trans ih (offsetLoop_le_succ d c t2)

/-- Each iteration adds at most the starting value. -/
theorem offsetLoop_le_mul (d c t : Nat) : offsetLoop d c t ≤ c * t := by
  induction t generalizing c with
  | zero => simp [offsetLoop]
  | succ t ih =>
    simp only [offsetLoop]
    have h1 : c - c / d ≤ c := Nat.sub_le _ _
    have h2 : offsetLoop d (c - c / d) t ≤ (c - c / d) * t := ih (c - c / d)
    have h3 : (c - c / d) * t ≤ c * t := Nat.mul_le_mul_right t h1
    calc (c - c / d) + offsetLoop d (c - c / d) t ≤ c + c * t := by omega
      _ = c * (t + 1) := by ring

/-- With decay divisor 1 the loop always returns 0. -/
theorem offsetLoop_one (c t : Nat) : offsetLoop 1 c t = 0 := by
  induction t generalizing c with
  | zero => rfl
  | succ t ih =>
    simp only [offsetLoop, Nat.div_one, Nat.sub_self, Nat.zero_add]
    exact ih 0

/-- The claimed iteration and the loop of the source agree. -/
theorem offsetLoop_eq_iterate (d : Nat) (c t a : Nat) :
    ((claimStep d)^[t] (c, a)).2 = a + offsetLoop d c t := by
  induction t generalizing c a with
  | zero => simp [offsetLoop]
  | succ t ih =>
    rw [Function.iterate_succ_apply]
    simp only [claimStep, offsetLoop]
    rw [ih]
    omega

/-- C3: for every stake `s` and distance `t`, `get_offset(s, t)` equals: 0 when
`t = 0`; `s · N` when `t > 150`; and otherwise the accumulator produced by
iterating `t` times, with `d = N + 1`, `cur` starting at `s` and `acc` at 0,
`cur ← cur − ⌊cur / d⌋` (saturating) then `acc ← acc + cur`. -/
theorem get_offset_algorithm (N s t : Nat) : get_offset N s t = claimOffset N s t := by
  unfold get_offset claimOffset
  by_cases h0 : t = 0
  · subst h0
    simp [offsetLoop]
  · simp only [h0, if_false]
    by_cases h1 : 150 < t
    · simp [h1]
    · simp only [h1, if_false]
      rw [offsetLoop_eq_iterate]
      exact (Nat.zero_add _).symm

/-- C4 (counterexample): with the default decay ratio 24, a stake of 1 at
distance 150 yields offset 150, exceeding the claimed bound stake · N = 24,
and exceeding the value at distance 151, so the function is neither bounded
by stake · N nor monotone in the distance. -/
theorem get_offset_bound_counterexample :
    get_offset 24 1 150 = 150 ∧ ¬ (get_offset 24 1 150 ≤ 1 * 24) ∧
      get_offset 24 1 151 = 24 ∧ ¬ (get_offset 24 1 150 ≤ get_offset 24 1 151) := by
  refine ⟨by decide, by decide, by decide, by decide⟩

/-- C4 (amended): `get_offset` is monotone non-decreasing in the stake
argument; it is monotone non-decreasing in the distance while the distance
stays within the iterated range `t ≤ 150`; `0 ≤ get_offset(s, u) ≤
s · max(N, 150)` for every distance `u`; and when the decay ratio is 0 the
function returns 0 everywhere. -/
theorem get_offset_props_amended (N s s2 t t2 u : Nat) (hs : s ≤ s2) (ht : t ≤ t2)
    (ht2 : t2 ≤ 150) :
    get_offset N s t ≤ get_offset N s2 t ∧
    get_offset N s t ≤ get_offset N s t2 ∧
    get_offset N s u ≤ s * max N 150 ∧
    (N = 0 → get_offset N s u = 0) := by
  refine ⟨?_, ?_, ?_, ?_⟩
  · unfold get_offset
    by_cases h : 150 < t
    · simp only [h, if_true]
      exact Nat.mul_le_mul_right N hs
    · simp only [h, if_false]
      exact offsetLoop_mono_cur (Nat.succ_pos N) hs t
  · unfold get_offset
    have h1 : ¬ (150 < t) := by omega
    have h2 : ¬ (150 < t2) := by omega
    simp only [h1, h2, if_false]
    exact offsetLoop_mono_t (N + 1) s ht
  · unfold get_offset
    by_cases h : 150 < u
    · simp only [h, if_true]
      exact Nat.mul_le_mul_left s (Nat.le_max_left N 150)
    · simp only [h, if_false]
      calc offsetLoop (N + 1) s u ≤ s * u := offsetLoop_le_mul (N + 1) s u
        _ ≤ s * 150 := Nat.mul_le_mul_left s (by omega)
        _ ≤ s * max N 150 := Nat.mul_le_mul_left s (Nat.le_max_right N 150)
  · intro hN
    subst hN
    unfold get_offset
    by_cases h : 150 < u
    · simp [h]
    · simp only [h, if_false]
      exact offsetLoop_one s u

/-- Witness for the amended C4 theorem at concrete inputs. -/
theorem get_offset_props_amended_witness :
    (3 ≤ 5 ∧ 2 ≤ 7 ∧ 7 ≤ 150) ∧
    (get_offset 24 3 2 ≤ get_offset 24 5 2 ∧
     get_offset 24 3 2 ≤ get_offset 24 3 7 ∧
     get_offset 24 3 200 ≤ 3 * max 24 150 ∧
     (24 = 0 → get_offset 24 3 200 = 0)) :=
  ⟨⟨by decide, by decide, by decide⟩,
   get_offset_props_amended 24 3 5 2 7 200 (by decide) (by decide) (by decide)⟩

/-! ### C1: the recomputed total of present_winner -/

/-- Folding addition over a list from an arbitrary initial value. -/
theorem foldl_add_init (l : List Nat) (a : Nat) :
    l.foldl (fun x y => x + y) a = a + l.foldl (fun x y => x + y) 0 := by
  induction l generalizing a with
  | nil => simp
  | cons x l ih =>
    simp only [List.foldl_cons]
    rw [ih (a + x), ih (0 + x)]
    set F := l.foldl (fun x y => x + y) 0 with hF
    omega

/-- The filter-map fold of the source equals the claimed guarded sum, for any
voter list all of whose entries have an activity record. -/
theorem contribution_sum (st : CouncilState) (registered_at : Nat) (slot : Nat)
    (l : List (Nat × Nat)) (h : ∀ p ∈ l, (st.voter_activity p.1).isSome) :
    (l.filterMap (presentContribution st registered_at slot)).foldl (fun a b => a + b) 0 =
    (l.map (fun p =>
      if registered_at ≤ claimLastActive st p.1 ∧
          (st.approvals_of p.1).getD slot false = true
      then claimVoterWeight st p.1 p.2 else 0)).sum := by
  induction l with
  | nil => simp
  | cons p l ih =>
    have hp : (st.voter_activity p.1).isSome := h p (List.mem_cons_self p l)
    obtain ⟨b, hb⟩ := Option.isSome_iff_exists.mp hp
    have hrest : ∀ q ∈ l, (st.voter_activity q.1).isSome :=
      fun q hq => h q (List.mem_cons_of_mem p hq)
    have hla : claimLastActive st p.1 = b.last_active := by
      simp [claimLastActive, hb]
    have hlw : claimLastWin st p.1 = b.last_win := by
      simp [claimLastWin, hb]
    simp only [List.map_cons, List.sum_cons]
    by_cases hcmp : registered_at ≤ b.last_active
    · rcases happ : (st.approvals_of p.1)[slot]? with _ | ap
      · have hgd : (st.approvals_of p.1).getD slot false = false := by
          rw [List.getD_eq_getElem?_getD, happ]
          rfl
        have hcontrib : presentContribution st registered_at slot p = none := by
          simp [presentContribution, hb, hcmp, happ]
        simp only [List.filterMap_cons, hcontrib, ih hrest, hla, hgd]
        simp
      · rcases ap with _ | _
        · have hgd : (st.approvals_of p.1).getD slot false = false := by
            rw [List.getD_eq_getElem?_getD, happ]
            rfl
          have hcontrib : presentContribution st registered_at slot p = none := by
            simp [presentContribution, hb, hcmp, happ]
          simp only [List.filterMap_cons, hcontrib, ih hrest, hla, hgd]
          simp
        · have hgd : (st.approvals_of p.1).getD slot false = true := by
            rw [List.getD_eq_getElem?_getD, happ]
            rfl
          have hcontrib : presentContribution st registered_at slot p =
              some (p.2 + get_offset st.decay_ratio p.2 (st.vote_index - b.last_win) +
                (st.offset_pot p.1).getD 0) := by
            simp [presentContribution, hb, hcmp, happ]
          simp only [List.filterMap_cons, hcontrib, List.foldl_cons, Nat.zero_add]
          rw [foldl_add_init, ih hrest, hla, hgd]
          simp only [hcmp, true_and, if_pos]
          rw [claimVoterWeight, hlw]
    · have hcontrib : presentContribution st registered_at slot p = none := by
        simp [presentContribution, hb, hcmp]
      simp only [List.filterMap_cons, hcontrib, ih hrest, hla]
      have : ¬ (registered_at ≤ b.last_active ∧
          (st.approvals_of p.1).getD slot false = true) := fun hc => hcmp hc.1
      rw [if_neg this]
      simp

/-- C1: in present_winner, for every registered candidate (registration index
`registered_at`, slot `slot`) and every state whose voters all have an
activity record, the recomputed actual total equals the sum over all voters
of the weight `snapshot_stake + offset + offset_pot`, taken exactly when
`last_active ≥ registered_at` and the approval bit at the slot is true (a
missing trailing position counts as false) and 0 otherwise; in particular a
voter whose `last_active` precedes `registered_at` (an approval bit set
before the current occupant of the slot registered) contributes nothing. -/
theorem present_winner_actual_total_spec (st : CouncilState) (registered_at slot : Nat)
    (h : ∀ p ∈ st.voters, (st.voter_activity p.1).isSome) :
    actual_total st registered_at slot = claimTotal st registered_at slot ∧
    (∀ p ∈ st.voters, ∀ b, st.voter_activity p.1 = some b →
      b.last_active < registered_at →
      presentContribution st registered_at slot p = none) := by
  constructor
  · exact contribution_sum st registered_at slot st.voters h
  · intro p _ b hb hlt
    simp [presentContribution, hb, Nat.not_le.mpr hlt]

/-- Witness for C1 on a concrete presentation state. -/
theorem present_winner_actual_total_spec_witness :
    (∀ p ∈ exPresent.voters, (exPresent.voter_activity p.1).isSome) ∧
    (actual_total exPresent 0 0 = claimTotal exPresent 0 0 ∧
     (∀ p ∈ exPresent.voters, ∀ b, exPresent.voter_activity p.1 = some b →
       b.last_active < 0 → presentContribution exPresent 0 0 p = none)) :=
  ⟨by decide, present_winner_actual_total_spec exPresent 0 0 (by decide)⟩

/-! ### C2: reap_inactive_voter -/

/-- The staleness boolean computed by the source coincides with the claimed
characterization: no approved slot currently holds a non-sentinel candidate
registered no later than the target's last activity. -/
theorem reapValid_iff (st : CouncilState) (who la : Nat) :
    reapValid st who la = true ↔ StaleTarget st who la := by
  unfold reapValid StaleTarget
  rw [Bool.not_eq_true']
  constructor
  · intro hval hex
    obtain ⟨i, hgd, hic, hns, r, hreg, hle⟩ := hex
    have hia : i < (st.approvals_of who).length := by
      by_contra hna
      rw [List.getD_eq_getElem?_getD, List.getElem?_eq_none (Nat.le_of_not_lt hna)] at hgd
      simp at hgd
    have hiz : i < ((st.approvals_of who).zip st.candidates).length := by
      rw [List.length_zip]
      exact lt_min hia hic
    have hmem : ((st.approvals_of who).zip st.candidates)[i] ∈
        (st.approvals_of who).zip st.candidates := List.getElem_mem hiz
    have hpred : (fun p => p.1 && (p.2 != sentinelAccount) &&
        (match st.candidate_reg_info p.2 with
         | some x => decide (x.1 ≤ la)
         | none => false)) (((st.approvals_of who).zip st.candidates)[i]) = true := by
      rw [List.getElem_zip]
      simp only [Bool.and_eq_true, bne_iff_ne]
      rw [List.getD_eq_getElem _ _ hia] at hgd
      rw [List.getD_eq_getElem _ _ hic] at hns hreg
      refine ⟨⟨hgd, hns⟩, ?_⟩
      rw [hreg]
      exact decide_eq_true hle
    have : ((st.approvals_of who).zip st.candidates).any (fun p =>
        p.1 && (p.2 != sentinelAccount) &&
        (match st.candidate_reg_info p.2 with
         | some x => decide (x.1 ≤ la)
         | none => false)) = true :=
      List.any_eq_true.mpr ⟨_, hmem, hpred⟩
    rw [hval] at this
    exact Bool.false_ne_true this
  · intro hst
    by_contra hany
    rw [Bool.not_eq_false] at hany
    obtain ⟨x, hxmem, hxpred⟩ := List.any_eq_true.mp hany
    obtain ⟨i, hiz, hxi⟩ := List.mem_iff_getElem.mp hxmem
    have hia : i < (st.approvals_of who).length := by
      rw [List.length_zip] at hiz
      omega
    have hic : i < st.candidates.length := by
      rw [List.length_zip] at hiz
      omega
    rw [← hxi, List.getElem_zip] at hxpred
    simp only [Bool.and_eq_true, bne_iff_ne] at hxpred
    obtain ⟨⟨happ, hns⟩, hmatch⟩ := hxpred
    rcases hregv : st.candidate_reg_info (st.candidates[i]) with _ | r
    · rw [hregv] at hmatch
      exact Bool.false_ne_true hmatch
    · rw [hregv] at hmatch
      refine hst ⟨i, ?_, hic, ?_, r, ?_, ?_⟩
      · rw [List.getD_eq_getElem _ _ hia]
        exact happ
      · rw [List.getD_eq_getElem _ _ hic]
        exact hns
      · rw [List.getD_eq_getElem _ _ hic]
        exact hregv
      · exact of_decide_eq_true hmatch

/-- C2: for every call of reap_inactive_voter that passes its guards (not in
presentation, reporter and target both current voters, both indices resolve
to the claimed accounts, claimed vote index current and past the grace
period after the target's last activity), the call succeeds; the target is
stale iff none of the approved slots of the target currently holds a
non-sentinel candidate registered no later than the target's `last_active`;
if stale, the target is removed and the reporter is repatriated the voting
bond of the target; if not stale, the reporter is removed and the voting
bond of the reporter is slashed into the BadReaper sink; exactly one of the
two voters is removed (the other keeps its activity record). -/
theorem reap_inactive_voter_spec (st : CouncilState) (reporter reporter_index who who_index avi : Nat)
    (rep act : VoterActivity)
    (hpres : st.next_finalize = none)
    (hrep : st.voter_activity reporter = some rep)
    (htgt : st.voter_activity who = some act)
    (hidx : avi = st.vote_index)
    (hgrace : act.last_active + st.inactivity_grace_period < avi)
    (hri : reporter_index < st.voters.length)
    (hriv : (st.voters.getD reporter_index (0, 0)).1 = reporter)
    (hwi : who_index < st.voters.length)
    (hwiv : (st.voters.getD who_index (0, 0)).1 = who)
    (hres1 : st.voting_bond ≤ st.reserved who)
    (hres2 : st.voting_bond ≤ st.reserved reporter) :
    (reapValid st who act.last_active = true ↔ StaleTarget st who act.last_active) ∧
    (reap_inactive_voter st reporter reporter_index who who_index avi).1 = none ∧
    (reapValid st who act.last_active = true →
      (reap_inactive_voter st reporter reporter_index who who_index avi).2.voter_activity who = none ∧
      (reap_inactive_voter st reporter reporter_index who who_index avi).2.voters.length + 1 =
        st.voters.length ∧
      (∀ a, a ≠ who →
        (reap_inactive_voter st reporter reporter_index who who_index avi).2.voter_activity a =
          st.voter_activity a) ∧
      (reap_inactive_voter st reporter reporter_index who who_index avi).2.reserved who =
        st.reserved who - st.voting_bond ∧
      (reap_inactive_voter st reporter reporter_index who who_index avi).2.free reporter =
        st.free reporter + st.voting_bond ∧
      (reap_inactive_voter st reporter reporter_index who who_index avi).2.bad_reaper_pot =
        st.bad_reaper_pot ∧
      CouncilEvent.voterReaped who reporter ∈
        (reap_inactive_voter st reporter reporter_index who who_index avi).2.events) ∧
    (reapValid st who act.last_active = false →
      (reap_inactive_voter st reporter reporter_index who who_index avi).2.voter_activity reporter = none ∧
      (reap_inactive_voter st reporter reporter_index who who_index avi).2.voters.length + 1 =
        st.voters.length ∧
      (∀ a, a ≠ reporter →
        (reap_inactive_voter st reporter reporter_index who who_index avi).2.voter_activity a =
          st.voter_activity a) ∧
      (reap_inactive_voter st reporter reporter_index who who_index avi).2.reserved reporter =
        st.reserved reporter - st.voting_bond ∧
      (reap_inactive_voter st reporter reporter_index who who_index avi).2.bad_reaper_pot =
        st.bad_reaper_pot + st.voting_bond ∧
      CouncilEvent.badReaperSlashed reporter ∈
        (reap_inactive_voter st reporter reporter_index who who_index avi).2.events) := by
  have hred : reap_inactive_voter st reporter reporter_index who who_index avi =
      (if reapValid st who act.last_active then
        (none, depositEvent
          (repatriateOp (removeLockOp (removeVoterOp st who who_index) who) who reporter
            st.voting_bond)
          (CouncilEvent.voterReaped who reporter))
      else
        (none, depositEvent
          { (slashReservedOp (removeLockOp (removeVoterOp st reporter reporter_index) reporter)
              reporter st.voting_bond).1 with
            bad_reaper_pot := (slashReservedOp
              (removeLockOp (removeVoterOp st reporter reporter_index) reporter)
              reporter st.voting_bond).1.bad_reaper_pot +
              (slashReservedOp (removeLockOp (removeVoterOp st reporter reporter_index) reporter)
                reporter st.voting_bond).2 }
          (CouncilEvent.badReaperSlashed reporter))) := by
    rw [reap_inactive_voter]
    simp only [presentation_active, hpres, Option.isSome_none, Bool.false_eq_true, if_false,
      hrep, Option.isNone_some, htgt, hidx, hgrace, hri, hriv, hwi, hwiv]
    cases hval : reapValid st who act.last_active <;>
      simp [hval, hgrace, hidx ▸ hgrace]
  constructor
  · exact reapValid_iff st who act.last_active
  refine ⟨?_, ?_, ?_⟩
  · rw [hred]
    cases reapValid st who act.last_active <;> simp
  · intro hv
    rw [hred, if_pos hv]
    have hlen : 0 < st.voters.length := Nat.lt_of_le_of_lt (Nat.zero_le _) hwi
    refine ⟨?_, ?_, ?_, ?_, ?_, ?_, ?_⟩
    · simp [depositEvent, repatriateOp, removeLockOp, removeVoterOp]
    · simp only [depositEvent, repatriateOp, removeLockOp, removeVoterOp]
      simp [swapRemove, List.length_dropLast, List.length_set]
      omega
    · intro a ha
      simp [depositEvent, repatriateOp, removeLockOp, removeVoterOp, ha]
    · simp [depositEvent, repatriateOp, removeLockOp, removeVoterOp,
        Nat.min_eq_right hres1]
    · simp [depositEvent, repatriateOp, removeLockOp, removeVoterOp,
        Nat.min_eq_right hres1]
    · simp [depositEvent, repatriateOp, removeLockOp, removeVoterOp]
    · simp [depositEvent, repatriateOp, removeLockOp, removeVoterOp]
  · intro hv
    rw [hred, if_neg (by rw [hv]; exact Bool.false_ne_true)]
    have hlen : 0 < st.voters.length := Nat.lt_of_le_of_lt (Nat.zero_le _) hri
    refine ⟨?_, ?_, ?_, ?_, ?_, ?_⟩
    · simp [depositEvent, slashReservedOp, removeLockOp, removeVoterOp]
    · simp only [depositEvent, slashReservedOp, removeLockOp, removeVoterOp]
      simp [swapRemove, List.length_dropLast, List.length_set]
      omega
    · intro a ha
      simp [depositEvent, slashReservedOp, removeLockOp, removeVoterOp, ha]
    · simp [depositEvent, slashReservedOp, removeLockOp, removeVoterOp,
        Nat.min_eq_right hres2]
    · simp [depositEvent, slashReservedOp, removeLockOp, removeVoterOp,
        Nat.min_eq_right hres2]
    · simp [depositEvent, slashReservedOp, removeLockOp, removeVoterOp]

/-- Witness for C2 on a concrete state: voter 2 is stale (no registered
candidates remain), so the target is removed and the reporter receives the
voting bond. -/
theorem reap_inactive_voter_spec_witness :
    (reap_inactive_voter exReap 1 0 2 1 4).1 = none ∧
    (reap_inactive_voter exReap 1 0 2 1 4).2.voter_activity 2 = none ∧
    (reap_inactive_voter exReap 1 0 2 1 4).2.free 1 = exReap.free 1 + exReap.voting_bond := by
  have h := reap_inactive_voter_spec exReap 1 0 2 1 4 ⟨4, 0⟩ ⟨2, 0⟩ (by decide) (by decide)
    (by decide) (by decide) (by decide) (by decide) (by decide) (by decide) (by decide)
    (by decide) (by decide)
  have hv : reapValid exReap 2 2 = true := by decide
  exact ⟨h.2.1, (h.2.2.1 hv).1, (h.2.2.1 hv).2.2.2.2.1⟩

/-! ### C6 and C7: set_approvals and submit_candidacy against the claim wording -/

/-- C7: submit_candidacy behaves exactly as the claim describes (duplicate
rejection; strict-append-or-sentinel slot rule; on success reserve the
candidacy bond, record the registration, place the candidate, increment the
count). -/
theorem submit_candidacy_matches_spec (st : CouncilState) (who slot : Nat) :
    submit_candidacy st who slot = spec_submit_candidacy st who slot := by
  unfold submit_candidacy spec_submit_candidacy
  have hc : ((slot = st.candidate_count ∧ st.candidate_count = st.candidates.length) ∨
      (slot < st.candidates.length ∧ st.candidates.getD slot sentinelAccount = sentinelAccount)) ↔
      ((slot = st.candidates.length ∧ slot = st.candidate_count) ∨
      (slot < st.candidates.length ∧ st.candidates.getD slot sentinelAccount = sentinelAccount)) := by
    constructor
    · rintro (⟨ha, hb⟩ | hx)
      · exact Or.inl ⟨ha.trans hb, ha⟩
      · exact Or.inr hx
    · rintro (⟨ha, hb⟩ | hx)
      · exact Or.inl ⟨hb, hb.symm.trans ha⟩
      · exact Or.inr hx
  by_cases h1 : (st.candidate_reg_info who).isSome = true
  · rw [if_pos h1, if_pos h1]
  · rw [if_neg h1, if_neg h1]
    by_cases h2 : ((slot = st.candidates.length ∧ slot = st.candidate_count) ∨
        (slot < st.candidates.length ∧ st.candidates.getD slot sentinelAccount = sentinelAccount))
    · rw [if_neg (not_not_intro (hc.mpr h2)), if_pos h2]
    · rw [if_pos (fun hA => h2 (hc.mp hA)), if_neg h2]

/-- C6: do_set_approvals behaves exactly as the claim describes (the four
rejection causes leave the state unchanged; a first-time voter reserves the
voting bond and is appended with the total balance; an existing voter has
the stake updated in place after crediting the decay offset since the last
win into the offset pot; in every successful case the activity record is
set to the current vote index in both fields — so a fresh voter starts with
`last_win = vote_index`, not 0 — and the approvals are overwritten). -/
theorem do_set_approvals_matches_spec (st : CouncilState) (who : Nat) (votes : List Bool)
    (index : Nat) :
    do_set_approvals st who votes index = spec_do_set_approvals st who votes index := by
  unfold do_set_approvals spec_do_set_approvals
  by_cases h1 : presentation_active st = true
  · rw [if_pos h1, if_pos h1]
  · rw [if_neg h1, if_neg h1]
    by_cases h2 : index ≠ st.vote_index
    · rw [if_pos h2, if_pos h2]
    · rw [if_neg h2, if_neg h2]
      have h2' : index = st.vote_index := not_not.mp h2
      subst h2'
      by_cases h3 : st.candidates.isEmpty = true
      · rw [if_pos h3, if_pos (List.isEmpty_iff.mp h3)]
      · have h3' : ¬ (st.candidates = []) := fun hnil => h3 (by simp [hnil])
        rw [if_neg h3, if_neg h3']
        by_cases h4 : votes.length ≤ st.candidates.length
        · have h4a : ¬ ¬ (votes.length ≤ st.candidates.length) := not_not_intro h4
          have h4b : ¬ (st.candidates.length < votes.length) := Nat.not_lt.mpr h4
          rw [if_neg h4a, if_neg h4b]
          cases hact : st.voter_activity who with
          | none => rfl
          | some act => rfl
        · have h4b : st.candidates.length < votes.length := Nat.not_le.mp h4
          rw [if_pos h4, if_pos h4b]

/-! ### C5: present_winner -/

/-- Forward reduction of present_winner under its guards. -/
theorem present_winner_reduce (st : CouncilState) (who candidate total index : Nat)
    (nf : Nat × Nat × List Nat) (lb : List (Nat × Nat)) (reg : Nat × Nat)
    (hnf : st.next_finalize = some nf) (hlb : st.leaderboard = some lb)
    (h1 : index = st.vote_index) (h0 : total ≠ 0)
    (h2 : st.present_slash_per_voter * st.voters.length ≤ st.free who)
    (h3 : (lb.getD 0 (0, sentinelAccount)).1 < total)
    (h4 : councilPositionOk st candidate nf.2.2 = true)
    (hreg : st.candidate_reg_info candidate = some reg) :
    present_winner st who candidate total index =
      (if total = actual_total st reg.1 reg.2 ∧
          lb.any (fun c => c.2 == candidate) = false then
        (none, { st with leaderboard := some (sortByWeight (lb.set 0 (total, candidate))) })
      else
        (some (if lb.any (fun c => c.2 == candidate) then "duplicate presentation"
          else "incorrect total"), badPresentationSlash st who)) := by
  unfold present_winner
  rw [if_neg h0, if_neg (not_not_intro h1)]
  simp only [hnf]
  rw [if_neg (not_not_intro h2)]
  simp only [hlb]
  rw [if_neg (not_not_intro h3), if_neg (not_not_intro h4)]
  simp only [hreg]

/-- C5 (amended): a call of present_winner succeeds only if the presentation
phase is active (next_finalize and leaderboard set), the claimed index is
current, the claimed total is positive and above the lowest leaderboard
weight, the presenter holds the potential punishment in free balance, the
candidate either is off the active council or sits there at a position
below the number of recorded expiring members (the source checks the
position, not membership of the expiring list), the candidate is currently
registered, the claimed total equals the recomputed total and the candidate
is not yet on the leaderboard; and under those guards the call replaces the
lowest leaderboard entry with `(total, candidate)` and re-sorts ascending by
weight, while a wrong total or duplicate is slashed and reported with the
corresponding error. -/
theorem present_winner_spec_amended (st : CouncilState) (who candidate total index : Nat) :
    ((present_winner st who candidate total index).1 = none →
      ∃ nf lb reg,
        st.next_finalize = some nf ∧ st.leaderboard = some lb ∧
        index = st.vote_index ∧ 0 < total ∧
        st.present_slash_per_voter * st.voters.length ≤ st.free who ∧
        (lb.getD 0 (0, sentinelAccount)).1 < total ∧
        councilPositionOk st candidate nf.2.2 = true ∧
        st.candidate_reg_info candidate = some reg ∧
        total = actual_total st reg.1 reg.2 ∧
        lb.any (fun c => c.2 == candidate) = false ∧
        present_winner st who candidate total index =
          (none, { st with leaderboard := some (sortByWeight (lb.set 0 (total, candidate))) })) ∧
    (∀ nf lb reg,
      st.next_finalize = some nf → st.leaderboard = some lb →
      index = st.vote_index → 0 < total →
      st.present_slash_per_voter * st.voters.length ≤ st.free who →
      (lb.getD 0 (0, sentinelAccount)).1 < total →
      councilPositionOk st candidate nf.2.2 = true →
      st.candidate_reg_info candidate = some reg →
      (if total = actual_total st reg.1 reg.2 ∧
          lb.any (fun c => c.2 == candidate) = false then
        present_winner st who candidate total index =
          (none, { st with leaderboard := some (sortByWeight (lb.set 0 (total, candidate))) }) ∧
        (sortByWeight (lb.set 0 (total, candidate))).Sorted weightLe ∧
        (sortByWeight (lb.set 0 (total, candidate))).Perm (lb.set 0 (total, candidate))
      else
        present_winner st who candidate total index =
          (some (if lb.any (fun c => c.2 == candidate) then "duplicate presentation"
            else "incorrect total"), badPresentationSlash st who))) := by
  constructor
  · intro h
    unfold present_winner at h
    by_cases h0 : total = 0
    · rw [if_pos h0] at h
      simp at h
    rw [if_neg h0] at h
    by_cases h1 : index ≠ st.vote_index
    · rw [if_pos h1] at h
      simp at h
    rw [if_neg h1] at h
    have h1' : index = st.vote_index := not_not.mp h1
    rcases hnf : st.next_finalize with _ | nf
    · simp only [hnf] at h
      simp at h
    simp only [hnf] at h
    by_cases h2 : st.present_slash_per_voter * st.voters.length ≤ st.free who
    swap
    · rw [if_pos h2] at h
      simp at h
    rw [if_neg (not_not_intro h2)] at h
    rcases hlb : st.leaderboard with _ | lb
    · simp only [hlb] at h
      simp at h
    simp only [hlb] at h
    by_cases h3 : (lb.getD 0 (0, sentinelAccount)).1 < total
    swap
    · rw [if_pos h3] at h
      simp at h
    rw [if_neg (not_not_intro h3)] at h
    by_cases h4 : councilPositionOk st candidate nf.2.2 = true
    swap
    · rw [if_pos h4] at h
      simp at h
    rw [if_neg (not_not_intro h4)] at h
    rcases hreg : st.candidate_reg_info candidate with _ | reg
    · simp only [hreg] at h
      simp at h
    simp only [hreg] at h
    by_cases h5 : total = actual_total st reg.1 reg.2 ∧
        lb.any (fun c => c.2 == candidate) = false
    swap
    · rw [if_neg h5] at h
      simp at h
    refine ⟨nf, lb, reg, rfl, rfl, h1', Nat.pos_of_ne_zero h0, h2, h3, h4, rfl,
      h5.1, h5.2, ?_⟩
    rw [present_winner_reduce st who candidate total index nf lb reg hnf hlb h1' h0 h2 h3
      h4 hreg, if_pos h5, hnf]
  · intro nf lb reg hnf hlb h1 h0 h2 h3 h4 hreg
    rw [present_winner_reduce st who candidate total index nf lb reg hnf hlb h1
      (Nat.pos_iff_ne_zero.mp h0) h2 h3 h4 hreg]
    by_cases h5 : total = actual_total st reg.1 reg.2 ∧
        lb.any (fun c => c.2 == candidate) = false
    · rw [if_pos h5, if_pos h5]
      exact ⟨rfl, List.sorted_insertionSort weightLe _, List.perm_insertionSort weightLe _⟩
    · rw [if_neg h5, if_neg h5]

/-- C5 (counterexample): a successful present_winner call for a candidate
that sits on the active council but is not among the recorded expiring
members; the source only checks the council position of the candidate
against the number of expiring members, not membership of the expiring
list, so the claimed guard does not hold of the code. -/
theorem present_winner_expiring_counterexample :
    (present_winner exPresentCouncil 4 7 10 0).1 = none ∧
    7 ∈ exPresentCouncil.active_council.map Prod.fst ∧
    7 ∉ (exPresentCouncil.next_finalize.getD (0, 0, [])).2.2 := by
  refine ⟨by decide, by decide, by decide⟩

/-- Witness for the amended C5 theorem: a correct presentation on a concrete
state inserts the pair and re-sorts the leaderboard. -/
theorem present_winner_spec_amended_witness :
    (if 10 = actual_total exPresent 0 0 ∧
        (([((0 : Nat), (0 : Nat)), (0, 0)]).any (fun c => c.2 == 2)) = false then
      present_winner exPresent 4 2 10 0 =
        (none, { exPresent with
          leaderboard := some (sortByWeight (([((0 : Nat), (0 : Nat)), (0, 0)]).set 0 (10, 2))) }) ∧
      (sortByWeight (([((0 : Nat), (0 : Nat)), (0, 0)]).set 0 (10, 2))).Sorted weightLe ∧
      (sortByWeight (([((0 : Nat), (0 : Nat)), (0, 0)]).set 0 (10, 2))).Perm
        (([((0 : Nat), (0 : Nat)), (0, 0)]).set 0 (10, 2))
    else
      present_winner exPresent 4 2 10 0 =
        (some (if (([((0 : Nat), (0 : Nat)), (0, 0)]).any (fun c => c.2 == 2)) then
          "duplicate presentation" else "incorrect total"), badPresentationSlash exPresent 4)) :=
  (present_winner_spec_amended exPresent 4 2 10 0).2 (8, 1, [9]) [(0, 0), (0, 0)] (0, 0)
    (by decide) (by decide) (by decide) (by decide) (by decide) (by decide) (by decide)
    (by decide)

/-! ### C8: atomicity on error -/

/-- C8 (amended): when a dispatch operation of the module returns an error
the state is unchanged, with one exception: a present_winner call that
passes its guards but claims a wrong total or duplicates a presentation
first slashes the presenter by `present_slash_per_voter * |voters|` into the
BadPresentation sink and then returns `duplicate presentation` or
`incorrect total`. -/
theorem error_atomicity_amended (st : CouncilState) (who cand : Nat) (votes : List Bool)
    (slot idx ri wi avi total : Nat) :
    ((do_set_approvals st who votes idx).1.isSome = true →
      (do_set_approvals st who votes idx).2 = st) ∧
    ((submit_candidacy st who slot).1.isSome = true →
      (submit_candidacy st who slot).2 = st) ∧
    ((retract_voter st who idx).1.isSome = true →
      (retract_voter st who idx).2 = st) ∧
    ((reap_inactive_voter st who ri cand wi avi).1.isSome = true →
      (reap_inactive_voter st who ri cand wi avi).2 = st) ∧
    (∀ e, (present_winner st who cand total idx).1 = some e →
      ((present_winner st who cand total idx).2 = st ∨
       ((e = "duplicate presentation" ∨ e = "incorrect total") ∧
        (present_winner st who cand total idx).2 = badPresentationSlash st who))) := by
  refine ⟨?_, ?_, ?_, ?_, ?_⟩
  · unfold do_set_approvals
    repeat' split
    all_goals intro h
    all_goals first | rfl | simp at h
  · unfold submit_candidacy
    repeat' split
    all_goals intro h
    all_goals first | rfl | simp at h
  · unfold retract_voter
    repeat' split
    all_goals intro h
    all_goals first | rfl | simp at h
  · intro h
    unfold reap_inactive_voter at h ⊢
    by_cases g1 : presentation_active st = true
    · rw [if_pos g1] at h ⊢
    rw [if_neg g1] at h ⊢
    by_cases g2 : (st.voter_activity who).isNone = true
    · rw [if_pos g2] at h ⊢
    rw [if_neg g2] at h ⊢
    rcases hact : st.voter_activity cand with _ | act
    · simp only [hact] at h ⊢
    simp only [hact] at h ⊢
    by_cases g3 : avi ≠ st.vote_index
    · rw [if_pos g3] at h ⊢
    rw [if_neg g3] at h ⊢
    by_cases g4 : act.last_active + st.inactivity_grace_period < avi
    swap
    · rw [if_pos g4] at h ⊢
    rw [if_neg (not_not_intro g4)] at h ⊢
    by_cases g5 : ri < st.voters.length ∧ (st.voters.getD ri (0, 0)).1 = who
    swap
    · rw [if_pos g5] at h ⊢
    rw [if_neg (not_not_intro g5)] at h ⊢
    by_cases g6 : wi < st.voters.length ∧ (st.voters.getD wi (0, 0)).1 = cand
    swap
    · rw [if_pos g6] at h ⊢
    rw [if_neg (not_not_intro g6)] at h ⊢
    cases hval : reapValid st cand act.last_active <;> simp [hval] at h
  · intro e h
    unfold present_winner at h ⊢
    by_cases h0 : total = 0
    · rw [if_pos h0] at h ⊢
      exact Or.inl (by simp)
    rw [if_neg h0] at h ⊢
    by_cases h1 : idx ≠ st.vote_index
    · rw [if_pos h1] at h ⊢
      exact Or.inl (by simp)
    rw [if_neg h1] at h ⊢
    rcases hnf : st.next_finalize with _ | nf
    · simp only [hnf] at h ⊢
      exact Or.inl (by simp)
    simp only [hnf] at h ⊢
    by_cases h2 : st.present_slash_per_voter * st.voters.length ≤ st.free who
    swap
    · rw [if_pos h2] at h ⊢
      exact Or.inl (by simp)
    rw [if_neg (not_not_intro h2)] at h ⊢
    rcases hlb : st.leaderboard with _ | lb
    · simp only [hlb] at h ⊢
      exact Or.inl (by simp)
    simp only [hlb] at h ⊢
    by_cases h3 : (lb.getD 0 (0, sentinelAccount)).1 < total
    swap
    · rw [if_pos h3] at h ⊢
      exact Or.inl (by simp)
    rw [if_neg (not_not_intro h3)] at h ⊢
    by_cases h4 : councilPositionOk st cand nf.2.2 = true
    swap
    · rw [if_pos h4] at h ⊢
      exact Or.inl (by simp)
    rw [if_neg (not_not_intro h4)] at h ⊢
    rcases hreg : st.candidate_reg_info cand with _ | reg
    · simp only [hreg] at h ⊢
      exact Or.inl (by simp)
    simp only [hreg] at h ⊢
    by_cases h5 : total = actual_total st reg.1 reg.2 ∧
        (lb.any fun c => c.2 == cand) = false
    · rw [if_pos h5] at h
      simp at h
    · rw [if_neg h5] at h ⊢
      right
      refine ⟨?_, rfl⟩
      have he : (if (lb.any fun c => c.2 == cand) then "duplicate presentation"
          else "incorrect total") = e := by simpa using h
      cases hd : (lb.any fun c => c.2 == cand) <;> rw [hd] at he <;> simp at he <;> subst he
      · exact Or.inr rfl
      · exact Or.inl (by simp)

/-- C8 (counterexample): a present_winner call that returns the error
`incorrect total` has nevertheless changed a balance (the presenter was
slashed), so error returns are not atomic for this operation. -/
theorem error_atomicity_counterexample :
    (present_winner exPresent 4 2 99 0).1 = some "incorrect total" ∧
    (present_winner exPresent 4 2 99 0).2.free 4 ≠ exPresent.free 4 := by
  refine ⟨by decide, by decide⟩

/-- Witness for the amended C8 theorem: a rejected set_approvals call (no
candidates) leaves the state untouched. -/
theorem error_atomicity_amended_witness :
    (do_set_approvals baseState 1 [] 0).1.isSome = true ∧
    (do_set_approvals baseState 1 [] 0).2 = baseState :=
  ⟨by decide, (error_atomicity_amended baseState 1 2 [] 0 0 0 0 0 99).1 (by decide)⟩

/-! ### C9: last-win update in finalize_tally -/

/-- A fold preserves any invariant preserved by each step. -/
theorem foldlPreserve {α β : Type} (P : β → Prop) (f : β → α → β) (l : List α)
    (hstep : ∀ b a, a ∈ l → P b → P (f b a)) (b : β) (hb : P b) : P (l.foldl f b) := by
  induction l generalizing b with
  | nil => exact hb
  | cons x l ih =>
    exact ih (fun b a ha hb2 => hstep b a (List.mem_cons_of_mem x ha) hb2) _
      (hstep b x (List.mem_cons_self x l) hb)

/-- One step of the inner loop keeps the last-active field of `v` and can only
rewrite the last-win field to `now1`. -/
theorem stepPresQ (st0 : CouncilState) (now1 slot v la : Nat)
    (b : Nat → Option VoterActivity) (p : Nat × Nat)
    (hb : ∃ lw, b v = some ⟨la, lw⟩) :
    ∃ lw, (if (st0.approvals_of p.1).getD slot false then updLastWin now1 b p.1 else b) v =
      some ⟨la, lw⟩ := by
  obtain ⟨lw, hlw⟩ := hb
  by_cases hap : (st0.approvals_of p.1).getD slot false = true
  · simp only [hap, if_true]
    unfold updLastWin
    by_cases hv : v = p.1
    · subst hv
      rw [if_pos rfl, hlw]
      exact ⟨now1, rfl⟩
    · rw [if_neg hv]
      exact ⟨lw, hlw⟩
  · simp only [Bool.not_eq_true] at hap
    simp only [hap, Bool.false_eq_true, if_false]
    exact ⟨lw, hlw⟩

/-- One step of the inner loop preserves an already-marked voter. -/
theorem stepPresP (st0 : CouncilState) (now1 slot v la : Nat)
    (b : Nat → Option VoterActivity) (p : Nat × Nat)
    (hb : b v = some ⟨la, now1⟩) :
    (if (st0.approvals_of p.1).getD slot false then updLastWin now1 b p.1 else b) v =
      some ⟨la, now1⟩ := by
  by_cases hap : (st0.approvals_of p.1).getD slot false = true
  · simp only [hap, if_true]
    unfold updLastWin
    by_cases hv : v = p.1
    · subst hv
      rw [if_pos rfl, hb]
      rfl
    · rw [if_neg hv]
      exact hb
  · simp only [Bool.not_eq_true] at hap
    simp only [hap, Bool.false_eq_true, if_false]
    exact hb

/-- The inner loop of finalize_tally keeps the shape of the activity of `v`. -/
theorem updSlot_pres_Q (st0 : CouncilState) (now1 slot v la : Nat)
    (act : Nat → Option VoterActivity) (h : ∃ lw, act v = some ⟨la, lw⟩) :
    ∃ lw, updSlot st0 now1 slot act v = some ⟨la, lw⟩ := by
  unfold updSlot
  exact foldlPreserve (fun a => ∃ lw, a v = some ⟨la, lw⟩) _ _
    (fun b p _ hb => stepPresQ st0 now1 slot v la b p hb) act h

/-- The inner loop of finalize_tally preserves an already-marked voter. -/
theorem updSlot_pres_P (st0 : CouncilState) (now1 slot v la : Nat)
    (act : Nat → Option VoterActivity) (h : act v = some ⟨la, now1⟩) :
    updSlot st0 now1 slot act v = some ⟨la, now1⟩ := by
  unfold updSlot
  exact foldlPreserve (fun a => a v = some ⟨la, now1⟩) _ _
    (fun b p _ hb => stepPresP st0 now1 slot v la b p hb) act h

/-- The inner loop of finalize_tally marks an approving voter. -/
theorem updSlot_sets_aux (st0 : CouncilState) (now1 slot v s la : Nat) :
    ∀ (l : List (Nat × Nat)) (act : Nat → Option VoterActivity), (v, s) ∈ l →
      (st0.approvals_of v).getD slot false = true →
      (∃ lw, act v = some ⟨la, lw⟩) →
      l.foldl (fun act p => if (st0.approvals_of p.1).getD slot false then
        updLastWin now1 act p.1 else act) act v = some ⟨la, now1⟩ := by
  intro l
  induction l with
  | nil =>
    intro act hm
    cases hm
  | cons p l ih =>
    intro act hm hap hq
    obtain ⟨lw, hlw⟩ := hq
    rcases List.mem_cons.mp hm with heq | hmem
    · have hpv : p.1 = v := by rw [← heq]
      simp only [List.foldl_cons]
      have hstep : (if (st0.approvals_of p.1).getD slot false then
          updLastWin now1 act p.1 else act) v = some ⟨la, now1⟩ := by
        rw [hpv, hap, if_pos rfl]
        unfold updLastWin
        rw [if_pos rfl, hlw]
        rfl
      exact foldlPreserve (fun a => a v = some ⟨la, now1⟩) _ _
        (fun b q _ hb => stepPresP st0 now1 slot v la b q hb) _ hstep
    · simp only [List.foldl_cons]
      exact ih _ hmem hap
        (stepPresQ st0 now1 slot v la act p ⟨lw, hlw⟩)

/-- The inner loop of finalize_tally, stated through updSlot. -/
theorem updSlot_sets (st0 : CouncilState) (now1 slot v s la : Nat)
    (act : Nat → Option VoterActivity) (hv : (v, s) ∈ st0.voters)
    (hap : (st0.approvals_of v).getD slot false = true)
    (hq : ∃ lw, act v = some ⟨la, lw⟩) :
    updSlot st0 now1 slot act v = some ⟨la, now1⟩ := by
  unfold updSlot
  exact updSlot_sets_aux st0 now1 slot v s la st0.voters act hv hap hq

/-- The outer loop of finalize_tally marks every voter approving the slot of
any processed registration record. -/
theorem updAllWinners_sets (st0 : CouncilState) (now1 : Nat) (regs : List (Nat × Nat))
    (r : Nat × Nat) (v s la lw : Nat) (act : Nat → Option VoterActivity)
    (hr : r ∈ regs) (hv : (v, s) ∈ st0.voters)
    (hap : (st0.approvals_of v).getD r.2 false = true)
    (hq : act v = some ⟨la, lw⟩) :
    updAllWinners st0 now1 regs act v = some ⟨la, now1⟩ := by
  obtain ⟨l1, l2, rfl⟩ := List.append_of_mem hr
  unfold updAllWinners
  rw [List.foldl_append, List.foldl_cons]
  have hq1 : ∃ lw2, (l1.foldl (fun act r => updSlot st0 now1 r.2 act) act) v =
      some ⟨la, lw2⟩ :=
    foldlPreserve (fun a => ∃ lw2, a v = some ⟨la, lw2⟩) _ l1
      (fun b rr _ hb => updSlot_pres_Q st0 now1 rr.2 v la b hb) act ⟨lw, hq⟩
  have hp : updSlot st0 now1 r.2 (l1.foldl (fun act r => updSlot st0 now1 r.2 act) act) v =
      some ⟨la, now1⟩ :=
    updSlot_sets st0 now1 r.2 v s la _ hv hap hq1
  exact foldlPreserve (fun a => a v = some ⟨la, now1⟩) _ l2
    (fun b rr _ hb => updSlot_pres_P st0 now1 rr.2 v la b hb) _ hp

/-- The unreserve fold of finalize_tally does not touch the event list. -/
theorem unreserve_fold_events (l : List Nat) (s : CouncilState) (amt : Nat) :
    (l.foldl (fun s a => unreserveOp s a amt) s).events = s.events := by
  induction l generalizing s with
  | nil => rfl
  | cons a l ih =>
    rw [List.foldl_cons, ih]
    rfl

/-- C9: when finalize_tally runs, every voter whose approval bit at the
registered slot of an incoming winner is true gets
`activity.last_win = vote_index + 1` (keeping `last_active`, and with no
condition on `last_active`); the call succeeds, the vote index is
incremented by exactly one, and the TallyFinalized(incoming, outgoing)
event is emitted. -/
theorem finalize_tally_last_win_spec (st : CouncilState) (nf : Nat × Nat × List Nat)
    (w v s r_at slot : Nat) (act : VoterActivity)
    (hnf : st.next_finalize = some nf)
    (hw : w ∈ incomingFrom (st.leaderboard.getD []) nf.2.1)
    (hreg : st.candidate_reg_info w = some (r_at, slot))
    (hv : (v, s) ∈ st.voters)
    (hap : (st.approvals_of v).getD slot false = true)
    (hact : st.voter_activity v = some act) :
    (finalize_tally st).2.voter_activity v =
      some { last_active := act.last_active, last_win := st.vote_index + 1 } ∧
    (finalize_tally st).2.vote_index = st.vote_index + 1 ∧
    CouncilEvent.tallyFinalized (incomingFrom (st.leaderboard.getD []) nf.2.1)
      (outgoingFrom st nf.2.2) ∈ (finalize_tally st).2.events ∧
    (finalize_tally st).1 = none := by
  have hr : (r_at, slot) ∈ (incomingFrom (st.leaderboard.getD []) nf.2.1).filterMap
      st.candidate_reg_info := List.mem_filterMap.mpr ⟨w, hw, hreg⟩
  refine ⟨?_, ?_, ?_, ?_⟩
  · simp only [finalize_tally, hnf, depositEvent]
    exact updAllWinners_sets st (st.vote_index + 1) _ (r_at, slot) v s act.last_active
      act.last_win st.voter_activity hr hv hap hact
  · simp only [finalize_tally, hnf, depositEvent]
  · simp only [finalize_tally, hnf, depositEvent, unreserve_fold_events]
    simp
  · simp only [finalize_tally, hnf]

/-- Witness for C9 on a concrete state: candidate 2 wins and the approving
voter 3 has the last-win index advanced to `vote_index + 1 = 1`. -/
theorem finalize_tally_last_win_spec_witness :
    (finalize_tally exFinalize).2.voter_activity 3 =
      some { last_active := 0, last_win := 1 } ∧
    (finalize_tally exFinalize).2.vote_index = 1 := by
  have h := finalize_tally_last_win_spec exFinalize (8, 1, []) 2 3 10 0 0 ⟨0, 0⟩
    (by decide) (by decide) (by decide) (by decide) (by decide) (by decide)
  exact ⟨h.1, h.2.1⟩

/-! ### C10: the unguarded subtraction in next_tally -/

/-- C10: while a tally is in progress, the member count computed by
next_tally subtracts the recorded number of leavers from the current council
size with no underflow guard: it is well defined exactly when the council
is at least as large as the recorded expiring list; and remove_member can
violate that precondition during the presentation phase. -/
theorem next_tally_underflow_spec :
    (∀ st nf, st.next_finalize = some nf →
      ((next_tally_count st).isSome = true ↔
        nf.2.2.length ≤ st.active_council.length)) ∧
    presentation_active exTally = true ∧
    (next_tally_count exTally).isSome = true ∧
    next_tally_count (remove_member exTally 7) = none := by
  refine ⟨?_, by decide, by decide, by decide⟩
  intro st nf hnf
  unfold next_tally_count
  simp only [hnf]
  by_cases h : nf.2.2.length ≤ st.active_council.length
  · simp [h]
  · simp [h]

/-- Witness for C10: the characterization applied at the concrete state. -/
theorem next_tally_underflow_spec_witness :
    (exTally.next_finalize = some (12, 1, [7])) ∧
    ((next_tally_count exTally).isSome = true ↔
      ([7] : List Nat).length ≤ exTally.active_council.length) :=
  ⟨by decide, next_tally_underflow_spec.1 exTally (12, 1, [7]) (by decide)⟩
